import Mathlib

/-!
Verification of the orchestration-and-execution engine of the
`google-antigravity-intelligent-agent-system` repository.

The Python sources (`meta_orchestrator.py`, `multi_agent_conversation.py`)
are shallowly embedded below: pure functions become Lean functions over
`String`/`List Char`, `ℚ` stands for Python floats (all arithmetic in the
analysed code paths is exact decimal/rational arithmetic), dictionaries
become association lists or explicit structures, fallible dictionary
lookups (`d["k"]` on a possibly-missing key) become `Except`/`Option`, and
wall-clock instants (`datetime.now()`) become explicit integer timestamps
passed as arguments.
-/

namespace AgentSys

/-! ### Text utilities

`str.lower()` on the ASCII range, Python `in` (substring containment) and
the `\b(w1|...|wn)\b` regex counters of `analyze_complexity`.  Since every
alternative `wi` in the source regexes consists only of word characters
and no alternative is a proper prefix of another within the same regex,
`len(re.findall(r'\b(w1|...|wn)\b', text))` equals the number of maximal
word-character runs ("tokens") of `text` that are equal to some `wi`;
word characters are modelled as ASCII `[A-Za-z0-9_]`. -/

def lowerChar (c : Char) : Char :=
  if 'A' ≤ c ∧ c ≤ 'Z' then Char.ofNat (c.toNat + 32) else c

def lowerList (l : List Char) : List Char := l.map lowerChar

def isWordChar (c : Char) : Bool :=
  ('a' ≤ c && c ≤ 'z') || ('A' ≤ c && c ≤ 'Z') || ('0' ≤ c && c ≤ '9') || c = '_'

/-- Maximal runs of word characters of a character list, in order. -/
def wordTokens : List Char → List (List Char)
  | [] => []
  | c :: rest =>
    let ts := wordTokens rest
    if isWordChar c then
      match rest with
      | [] => [[c]]
      | c' :: _ =>
        if isWordChar c' then
          match ts with
          | [] => [[c]]
          | t :: ts' => (c :: t) :: ts'
        else [c] :: ts
    else ts

/-- Python `len(re.findall(r'\b(w1|...|wn)\b', text))` for word-only alternatives
`ws`, see the section comment. -/
def countWordMatches (ws : List String) (textLow : List Char) : ℕ :=
  ((wordTokens textLow).filter (fun t => ws.any (fun w => w.toList = t))).length

/-- Python `needle in hay` substring containment. -/
def containsSub (hay needle : List Char) : Bool :=
  hay.tails.any (fun t => needle.isPrefixOf t)

/-- Substring containment lifted to `String`. -/
def strContains (hay needle : String) : Bool :=
  containsSub hay.toList needle.toList

/-! ### ComplexityClassifier (`MetaOrchestrator.analyze_complexity`) -/

/-- The `OrchestrationPattern` enum of `meta_orchestrator.py`. -/
inductive OrchestrationPattern where
  | sequential
  | concurrent
  | group_chat
  | maker_checker
  | handoff
  | hierarchical
deriving DecidableEq, Repr

/-- The four regex counters of `analyze_complexity`
(`multi_domain`, `technical_terms`, `action_verbs`, `scope_indicators`). -/
def complexityIndicators (request : String) : ℕ × ℕ × ℕ × ℕ :=
  let low := lowerList request.toList
  (countWordMatches ["react", "python", "database", "docker", "test"] low,
   countWordMatches ["api", "database", "frontend", "backend", "deploy"] low,
   countWordMatches ["build", "create", "implement", "design", "develop"] low,
   countWordMatches ["system", "platform", "application", "solution"] low)

/-- Python `sum(complexity_indicators.values()) / 4.0`. -/
def complexityScore (request : String) : ℚ :=
  let ind := complexityIndicators request
  ((ind.1 + ind.2.1 + ind.2.2.1 + ind.2.2.2 : ℕ) : ℚ) / 4

/-- Embedding of `MetaOrchestrator.analyze_complexity`: the score together with the
pattern chosen by the threshold chain. -/
def analyzeComplexity (request : String) : ℚ × OrchestrationPattern :=
  let score := complexityScore request
  if score ≥ 3 then (score, .hierarchical)
  else if score ≥ 2 then (score, .concurrent)
  else if score ≥ 1 then (score, .sequential)
  else (score, .handoff)

/-- The mean of four counters, as a function of the counter values. -/
def scoreOfCounts (a b c d : ℕ) : ℚ := ((a + b + c + d : ℕ) : ℚ) / 4

lemma analyzeComplexity_fst (request : String) :
    (analyzeComplexity request).1 = complexityScore request := by
  simp only [analyzeComplexity]
  split_ifs <;> rfl

lemma analyzeComplexity_snd (request : String) :
    (analyzeComplexity request).2 =
      if 3 ≤ complexityScore request then OrchestrationPattern.hierarchical
      else if 2 ≤ complexityScore request then OrchestrationPattern.concurrent
      else if 1 ≤ complexityScore request then OrchestrationPattern.sequential
      else OrchestrationPattern.handoff := by
  simp only [analyzeComplexity, ge_iff_le]
  split_ifs <;> rfl

lemma complexityScore_eq_scoreOfCounts (request : String) :
    complexityScore request =
      scoreOfCounts (complexityIndicators request).1 (complexityIndicators request).2.1
        (complexityIndicators request).2.2.1 (complexityIndicators request).2.2.2 := rfl

lemma complexityScore_nonneg (request : String) : 0 ≤ complexityScore request := by
  unfold complexityScore
  positivity

/-- Claim C1: for every request string, `analyze_complexity` returns the
score `(multi_domain + technical_terms + action_verbs + scope_indicators)/4`
and the pattern fixed by the thresholds on that score: `≥ 3` hierarchical,
`[2,3)` concurrent, `[1,2)` sequential, `< 1` handoff.  (The embedding is a
pure function of the request text, matching the absence of side effects in
the source.) -/
theorem C1_complexity_thresholds (request : String) :
    (analyzeComplexity request).1 = complexityScore request ∧
    (3 ≤ (analyzeComplexity request).1 →
      (analyzeComplexity request).2 = OrchestrationPattern.hierarchical) ∧
    (2 ≤ (analyzeComplexity request).1 ∧ (analyzeComplexity request).1 < 3 →
      (analyzeComplexity request).2 = OrchestrationPattern.concurrent) ∧
    (1 ≤ (analyzeComplexity request).1 ∧ (analyzeComplexity request).1 < 2 →
      (analyzeComplexity request).2 = OrchestrationPattern.sequential) ∧
    ((analyzeComplexity request).1 < 1 →
      (analyzeComplexity request).2 = OrchestrationPattern.handoff) := by
  rw [analyzeComplexity_fst, analyzeComplexity_snd]
  refine ⟨rfl, ?_, ?_, ?_, ?_⟩ <;> intro h <;>
    split_ifs <;> first | rfl | (exfalso; rcases h with ⟨ha, hb⟩ <;> linarith) |
      (exfalso; linarith)

lemma complexityIndicators_empty : complexityIndicators "" = (0, 0, 0, 0) := by decide

/-- Claim C1 witness: on the empty request the score is `0 < 1` and the
chosen pattern is handoff. -/
theorem C1_complexity_thresholds_witness :
    (analyzeComplexity "").2 = OrchestrationPattern.handoff :=
  (C1_complexity_thresholds "").2.2.2.2 (by
    rw [analyzeComplexity_fst, complexityScore_eq_scoreOfCounts,
      complexityIndicators_empty]
    norm_num [scoreOfCounts])

/-- Claim C4 counterexample: the complexity score is not bounded by 3.  A
request consisting of thirteen occurrences of the technical term "api"
yields `technical_terms = 13` and score `13/4 > 3`. -/
theorem C4_score_range_counterexample :
    ¬ (analyzeComplexity "api api api api api api api api api api api api api").1 ≤ 3 := by
  rw [analyzeComplexity_fst, complexityScore_eq_scoreOfCounts]
  have h : complexityIndicators "api api api api api api api api api api api api api" =
      (0, 13, 0, 0) := by decide
  rw [h]
  norm_num [scoreOfCounts]

/-- Claim C4 as amended: for every request the complexity score equals the
mean of the four matched-keyword counters, is nonnegative (but has no upper
bound of 3), and the mean is monotonically non-decreasing in each of the
four counts. -/
theorem C4_score_monotone_amended (request : String) :
    (analyzeComplexity request).1 =
      scoreOfCounts (complexityIndicators request).1 (complexityIndicators request).2.1
        (complexityIndicators request).2.2.1 (complexityIndicators request).2.2.2 ∧
    0 ≤ (analyzeComplexity request).1 ∧
    (∀ a a' b b' c c' d d' : ℕ, a ≤ a' → b ≤ b' → c ≤ c' → d ≤ d' →
      scoreOfCounts a b c d ≤ scoreOfCounts a' b' c' d') := by
  refine ⟨by rw [analyzeComplexity_fst, complexityScore_eq_scoreOfCounts],
    by rw [analyzeComplexity_fst]; exact complexityScore_nonneg request,
    fun a a' b b' c c' d d' ha hb hc hd => ?_⟩
  unfold scoreOfCounts
  have : ((a + b + c + d : ℕ) : ℚ) ≤ ((a' + b' + c' + d' : ℕ) : ℚ) := by
    push_cast
    gcongr
  linarith

/-- Claim C4 witness: instantiating the amended claim at the empty request
and at counters `(0,0,0,0) ≤ (1,0,0,0)` gives `0 ≤ score("")` and
`scoreOfCounts 0 0 0 0 ≤ scoreOfCounts 1 0 0 0`. -/
theorem C4_score_monotone_amended_witness :
    0 ≤ (analyzeComplexity "").1 ∧ scoreOfCounts 0 0 0 0 ≤ scoreOfCounts 1 0 0 0 :=
  ⟨(C4_score_monotone_amended "").2.1,
   (C4_score_monotone_amended "").2.2 0 1 0 0 0 0 0 0 (by norm_num) (le_refl 0)
     (le_refl 0) (le_refl 0)⟩

/-! ### ConsensusEvaluator
(`MultiAgentConversationEngine._calculate_consensus_level`) -/

/-- An expert response dictionary as consumed by the consensus and
quality-metric helpers: the `confidence` key may be absent
(`r.get("confidence", 0.8)` supplies the default). -/
structure AgentResponse where
  expert : String := ""
  content : String := ""
  confidence : Option ℚ := none
deriving Repr, DecidableEq

/-- Python `r.get("confidence", 0.8)`. -/
def getConfidence (r : AgentResponse) : ℚ := r.confidence.getD (4/5)

/-- Embedding of `MultiAgentConversationEngine._calculate_consensus_level`. -/
def calculateConsensusLevel (responses : List AgentResponse) : ℚ :=
  if responses.length < 2 then 1
  else
    let confidences := responses.map getConfidence
    let avgConfidence := confidences.sum / (confidences.length : ℚ)
    let agreementFactor := min ((responses.length : ℚ) / 5) 1
    avgConfidence * agreementFactor

lemma consensus_avg_bounds {rs : List AgentResponse}
    (hconf : ∀ r ∈ rs, 0 ≤ getConfidence r ∧ getConfidence r ≤ 1) (hne : rs ≠ []) :
    0 ≤ (rs.map getConfidence).sum / ((rs.map getConfidence).length : ℚ) ∧
      (rs.map getConfidence).sum / ((rs.map getConfidence).length : ℚ) ≤ 1 := by
  have hlen : 0 < ((rs.map getConfidence).length : ℚ) := by
    have : 0 < rs.length := List.length_pos.mpr hne
    simp only [List.length_map]
    exact_mod_cast this
  have hsum0 : 0 ≤ (rs.map getConfidence).sum :=
    List.sum_nonneg (by
      intro x hx
      obtain ⟨r, hr, rfl⟩ := List.mem_map.mp hx
      exact (hconf r hr).1)
  have hsum1 : (rs.map getConfidence).sum ≤ ((rs.map getConfidence).length : ℚ) := by
    have := List.sum_le_card_nsmul (rs.map getConfidence) 1 (by
      intro x hx
      obtain ⟨r, hr, rfl⟩ := List.mem_map.mp hx
      exact (hconf r hr).2)
    simpa [nsmul_eq_mul] using this
  exact ⟨div_nonneg hsum0 hlen.le, (div_le_one hlen).mpr hsum1⟩

/-- Claim C5: for responses with confidences in `[0,1]`, the consensus
level is exactly 1 for fewer than 2 responses, otherwise it is the average
confidence times `min(count/5, 1)`, and it always lies in `[0,1]`. -/
theorem C5_consensus_level (rs : List AgentResponse)
    (hconf : ∀ r ∈ rs, 0 ≤ getConfidence r ∧ getConfidence r ≤ 1) :
    (rs.length < 2 → calculateConsensusLevel rs = 1) ∧
    (2 ≤ rs.length → calculateConsensusLevel rs =
      ((rs.map getConfidence).sum / (rs.length : ℚ)) * min ((rs.length : ℚ) / 5) 1) ∧
    0 ≤ calculateConsensusLevel rs ∧ calculateConsensusLevel rs ≤ 1 := by
  by_cases h : rs.length < 2
  · have hval : calculateConsensusLevel rs = 1 := by
      unfold calculateConsensusLevel
      rw [if_pos h]
    refine ⟨fun _ => hval, fun h2 => absurd h (by omega), ?_, ?_⟩ <;> (rw [hval]; try norm_num)
  · have hne : rs ≠ [] := by
      intro he
      rw [he] at h
      simp at h
    have hval : calculateConsensusLevel rs =
        ((rs.map getConfidence).sum / (rs.length : ℚ)) * min ((rs.length : ℚ) / 5) 1 := by
      unfold calculateConsensusLevel
      rw [if_neg h]
      simp only [List.length_map]
    have hmin0 : (0:ℚ) ≤ min ((rs.length : ℚ) / 5) 1 :=
      le_min (by positivity) (by norm_num)
    have hmin1 : min ((rs.length : ℚ) / 5) 1 ≤ 1 := min_le_right _ _
    obtain ⟨havg0, havg1⟩ := consensus_avg_bounds hconf hne
    rw [List.length_map] at havg0 havg1
    refine ⟨fun h2 => absurd h2 h, fun _ => hval, ?_, ?_⟩
    · rw [hval]
      exact mul_nonneg havg0 hmin0
    · rw [hval]
      calc (rs.map getConfidence).sum / ((rs.length : ℚ)) * min ((rs.length : ℚ) / 5) 1
          ≤ 1 * 1 := mul_le_mul havg1 hmin1 hmin0 (by norm_num)
        _ = 1 := by norm_num

/-- Claim C5 witness: two responses of confidence `0.9` each — the
consensus level lies in `[0,1]` (concretely `0.9 × 2/5 = 0.36`). -/
theorem C5_consensus_level_witness :
    0 ≤ calculateConsensusLevel
        [{ confidence := some (9/10) }, { confidence := some (9/10) }] ∧
      calculateConsensusLevel
        [{ confidence := some (9/10) }, { confidence := some (9/10) }] ≤ 1 :=
  (C5_consensus_level _ (by
    intro r hr
    fin_cases hr <;> norm_num [getConfidence])).2.2

/-! ### Maker-checker loop
(`MultiAgentConversationEngine._maker_checker_loop_conversation` and
`_extract_approval_score`)

The maker and checker contents are produced by the external generation
capability; the loop's control flow depends on them only through the
checker review text of each iteration, so the loop is embedded as a
function of an oracle `reviews : ℕ → String` giving the checker review
content of iteration `i` (iterations are counted from 1 as in the
source's `iteration_count`). -/

def positiveKeywords : List String :=
  ["approved", "good", "excellent", "perfect", "complete", "ready"]

def negativeKeywords : List String :=
  ["needs", "improve", "fix", "change", "incomplete", "missing"]

/-- Python `sum(1 for keyword in ws if keyword in content.lower())`. -/
def sentimentHits (ws : List String) (content : String) : ℕ :=
  (ws.filter (fun w => containsSub (lowerList content.toList) w.toList)).length

/-- Embedding of `MultiAgentConversationEngine._extract_approval_score`. -/
def extractApprovalScore (content : String) : ℚ :=
  let pos := sentimentHits positiveKeywords content
  let neg := sentimentHits negativeKeywords content
  if pos + neg = 0 then 4/5
  else max 0 (min 1 ((pos : ℚ) / ((pos + neg : ℕ) : ℚ)))

/-- The `while iteration_count < max_iterations` loop of
`_maker_checker_loop_conversation`, with `fuel = max_iterations -
iteration_count` making the countdown structural.  Returns the final
`iteration_count` and the list of recorded approval scores
(`feedback_history`, projected to its `approval_score` fields). -/
def makerCheckerIterate (reviews : ℕ → String) :
    ℕ → ℕ → List ℚ → ℕ × List ℚ
  | 0, count, hist => (count, hist)
  | fuel + 1, count, hist =>
    let count' := count + 1
    let a := extractApprovalScore (reviews count')
    let hist' := hist ++ [a]
    if 4/5 ≤ a then (count', hist')
    else makerCheckerIterate reviews fuel count' hist'

/-- The loop entered with `iteration_count = 0`, `max_iterations = 3` and
empty `feedback_history`. -/
def makerCheckerLoop (reviews : ℕ → String) : ℕ × List ℚ :=
  makerCheckerIterate reviews 3 0 []

/-- The assignment `consensus_level=feedback_history[-1]["approval_score"]` of the
returned `ConversationResult`. -/
def makerCheckerConsensusLevel (reviews : ℕ → String) : Option ℚ :=
  (makerCheckerLoop reviews).2.getLast?

lemma extractApprovalScore_spec (s : String) :
    (sentimentHits positiveKeywords s + sentimentHits negativeKeywords s = 0 →
      extractApprovalScore s = 4/5) ∧
    (sentimentHits positiveKeywords s + sentimentHits negativeKeywords s ≠ 0 →
      extractApprovalScore s = (sentimentHits positiveKeywords s : ℚ) /
        ((sentimentHits positiveKeywords s + sentimentHits negativeKeywords s : ℕ) : ℚ)) ∧
    0 ≤ extractApprovalScore s ∧ extractApprovalScore s ≤ 1 := by
  set pos := sentimentHits positiveKeywords s with hpos
  set neg := sentimentHits negativeKeywords s with hneg
  unfold extractApprovalScore
  rw [← hpos, ← hneg]
  by_cases h : pos + neg = 0
  · rw [if_pos h]
    exact ⟨fun _ => rfl, fun hc => absurd h hc, by norm_num, by norm_num⟩
  · rw [if_neg h]
    have hd : (0:ℚ) < ((pos + neg : ℕ) : ℚ) := by
      have : 0 < pos + neg := Nat.pos_of_ne_zero h
      exact_mod_cast this
    have hr0 : (0:ℚ) ≤ (pos : ℚ) / ((pos + neg : ℕ) : ℚ) :=
      div_nonneg (by positivity) hd.le
    have hr1 : (pos : ℚ) / ((pos + neg : ℕ) : ℚ) ≤ 1 := by
      rw [div_le_one hd]
      exact_mod_cast Nat.le_add_right pos neg
    have hmin : min 1 ((pos : ℚ) / ((pos + neg : ℕ) : ℚ)) =
        (pos : ℚ) / ((pos + neg : ℕ) : ℚ) := min_eq_right hr1
    have hmax : max 0 ((pos : ℚ) / ((pos + neg : ℕ) : ℚ)) =
        (pos : ℚ) / ((pos + neg : ℕ) : ℚ) := max_eq_right hr0
    rw [hmin, hmax]
    exact ⟨fun hc => absurd hc h, fun _ => rfl, hr0, hr1⟩

/-- Claim C6: for every checker-review oracle the maker-checker loop runs
between 1 and 3 iterations and terminates, it records exactly the approval
scores of iterations `1..n` and stops at the first iteration whose score
is `≥ 0.8` (running all 3 otherwise), the reported consensus level is the
last iteration's approval score, and every approval score equals
`positive/(positive+negative)` over the sentiment keyword hits (default
`0.8` when no keyword matches), always within `[0,1]`. -/
theorem C6_maker_checker_loop (reviews : ℕ → String) :
    1 ≤ (makerCheckerLoop reviews).1 ∧ (makerCheckerLoop reviews).1 ≤ 3 ∧
    (makerCheckerLoop reviews).2 =
      (List.range' 1 (makerCheckerLoop reviews).1).map
        (fun i => extractApprovalScore (reviews i)) ∧
    (∀ k, 1 ≤ k → k < (makerCheckerLoop reviews).1 →
      extractApprovalScore (reviews k) < 4/5) ∧
    (4/5 ≤ extractApprovalScore (reviews (makerCheckerLoop reviews).1) ∨
      (makerCheckerLoop reviews).1 = 3) ∧
    makerCheckerConsensusLevel reviews =
      some (extractApprovalScore (reviews (makerCheckerLoop reviews).1)) ∧
    (∀ s, 0 ≤ extractApprovalScore s ∧ extractApprovalScore s ≤ 1 ∧
      (sentimentHits positiveKeywords s + sentimentHits negativeKeywords s = 0 →
        extractApprovalScore s = 4/5) ∧
      (sentimentHits positiveKeywords s + sentimentHits negativeKeywords s ≠ 0 →
        extractApprovalScore s = (sentimentHits positiveKeywords s : ℚ) /
          ((sentimentHits positiveKeywords s + sentimentHits negativeKeywords s : ℕ) : ℚ))) := by
  have hspec := fun s => extractApprovalScore_spec s
  have hfinal : ∀ s, 0 ≤ extractApprovalScore s ∧ extractApprovalScore s ≤ 1 ∧
      (sentimentHits positiveKeywords s + sentimentHits negativeKeywords s = 0 →
        extractApprovalScore s = 4/5) ∧
      (sentimentHits positiveKeywords s + sentimentHits negativeKeywords s ≠ 0 →
        extractApprovalScore s = (sentimentHits positiveKeywords s : ℚ) /
          ((sentimentHits positiveKeywords s + sentimentHits negativeKeywords s : ℕ) : ℚ)) :=
    fun s => ⟨(hspec s).2.2.1, (hspec s).2.2.2, (hspec s).1, (hspec s).2.1⟩
  by_cases h1 : 4/5 ≤ extractApprovalScore (reviews 1)
  · have hres : makerCheckerLoop reviews = (1, [extractApprovalScore (reviews 1)]) := by
      simp [makerCheckerLoop, makerCheckerIterate, h1]
    simp only [makerCheckerConsensusLevel, hres]
    refine ⟨le_refl 1, by norm_num, by simp [List.range'], fun k hk1 hk2 => by omega,
      Or.inl h1, by simp, hfinal⟩
  · by_cases h2 : 4/5 ≤ extractApprovalScore (reviews 2)
    · have hres : makerCheckerLoop reviews =
          (2, [extractApprovalScore (reviews 1), extractApprovalScore (reviews 2)]) := by
        simp [makerCheckerLoop, makerCheckerIterate, h1, h2]
      simp only [makerCheckerConsensusLevel, hres]
      refine ⟨by norm_num, by norm_num, by simp [List.range'], fun k hk1 hk2 => ?_,
        Or.inl h2, by simp, hfinal⟩
      have : k = 1 := by omega
      subst this
      exact lt_of_not_le h1
    · have hres : makerCheckerLoop reviews =
          (3, [extractApprovalScore (reviews 1), extractApprovalScore (reviews 2),
            extractApprovalScore (reviews 3)]) := by
        by_cases h3 : 4/5 ≤ extractApprovalScore (reviews 3) <;>
          simp [makerCheckerLoop, makerCheckerIterate, h1, h2, h3]
      simp only [makerCheckerConsensusLevel, hres]
      refine ⟨by norm_num, le_refl 3, by simp [List.range'], fun k hk1 hk2 => ?_,
        Or.inr (by norm_num), by simp, hfinal⟩
      have : k = 1 ∨ k = 2 := by omega
      rcases this with rfl | rfl
      · exact lt_of_not_le h1
      · exact lt_of_not_le h2

/-- Claim C6 witness: with every review reading "approved" the loop stops
after its first iteration (approval score 1 ≥ 0.8), so the iteration count
is 1 and the recorded history is that single score. -/
theorem C6_maker_checker_loop_witness :
    1 ≤ (makerCheckerLoop (fun _ => "approved")).1 ∧
      (makerCheckerLoop (fun _ => "approved")).1 = 1 :=
  ⟨(C6_maker_checker_loop (fun _ => "approved")).1, by
    have hpos : sentimentHits positiveKeywords "approved" = 1 := by decide
    have hneg : sentimentHits negativeKeywords "approved" = 0 := by decide
    have ha : extractApprovalScore "approved" = 1 := by
      simp only [extractApprovalScore, hpos, hneg]
      norm_num
    simp only [makerCheckerLoop, makerCheckerIterate, ha]
    norm_num⟩

/-! ### ResilienceManager circuit breaker
(`ResilienceManager.check_circuit_breaker` / `record_failure`)

Wall-clock instants (`datetime.now()`) are explicit integer-second
timestamps.  `(now - last).seconds` on a Python `timedelta` is the
normalized seconds field, i.e. the mathematical (divisor-signed) modulus
of the total seconds by 86400. -/

structure CircuitBreaker where
  failures : ℕ := 0
  lastFailure : Option ℤ := none
  state : String := "closed"
deriving Repr, DecidableEq

/-- The per-expert entry created on first use:
`{"failures": 0, "last_failure": None, "state": "closed"}`. -/
def initialBreaker : CircuitBreaker := {}

/-- Python `%` (sign of the divisor, here positive). -/
def pymod (a b : ℤ) : ℤ := (a % b + b) % b

/-- Python `timedelta.seconds` for a delta of `d` whole seconds. -/
def timedeltaSeconds (d : ℤ) : ℤ := pymod d 86400

/-- Embedding of `ResilienceManager.check_circuit_breaker` on an already-initialized
breaker entry: returns whether the call is permitted together with the
(possibly updated) breaker entry. -/
def checkCircuitBreaker (now : ℤ) (b : CircuitBreaker) : Bool × CircuitBreaker :=
  if b.state = "open" then
    match b.lastFailure with
    | some t =>
      if timedeltaSeconds (now - t) > 60 then (true, { b with state := "half_open" })
      else (false, b)
    | none => (false, b)
  else (true, b)

/-- Embedding of `ResilienceManager.record_failure` on an already-initialized entry. -/
def recordFailure (now : ℤ) (b : CircuitBreaker) : CircuitBreaker :=
  let b' := { b with failures := b.failures + 1, lastFailure := some now }
  if 3 ≤ b'.failures then { b' with state := "open" } else b'

/-- Recording one failure per timestamp in `ts`, in order, starting from a
fresh breaker entry. -/
def recordFailures (ts : List ℤ) : CircuitBreaker :=
  ts.foldl (fun b t => recordFailure t b) initialBreaker

lemma recordFailure_failures (now : ℤ) (b : CircuitBreaker) :
    (recordFailure now b).failures = b.failures + 1 := by
  simp only [recordFailure]
  split_ifs <;> rfl

lemma recordFailure_state (now : ℤ) (b : CircuitBreaker) :
    (recordFailure now b).state = if 3 ≤ b.failures + 1 then "open" else b.state := by
  simp only [recordFailure]
  split_ifs <;> rfl

lemma foldl_recordFailure_failures (ts : List ℤ) (b : CircuitBreaker) :
    (ts.foldl (fun b t => recordFailure t b) b).failures = b.failures + ts.length := by
  induction ts generalizing b with
  | nil => simp
  | cons t ts ih =>
    simp only [List.foldl_cons, List.length_cons, ih, recordFailure_failures]
    omega

lemma foldl_recordFailure_state (ts : List ℤ) (b : CircuitBreaker) (hne : ts ≠ []) :
    (ts.foldl (fun b t => recordFailure t b) b).state =
      if 3 ≤ b.failures + ts.length then "open" else b.state := by
  induction ts generalizing b with
  | nil => exact absurd rfl hne
  | cons t ts ih =>
    simp only [List.foldl_cons, List.length_cons]
    rcases eq_or_ne ts [] with rfl | hts
    · simp only [List.foldl_nil, List.length_nil]
      rw [recordFailure_state]
    · rw [ih _ hts, recordFailure_failures, recordFailure_state]
      try split_ifs <;> first | rfl | omega

/-- Claim C7: from a fresh breaker entry, the state is open exactly when
at least 3 failures have been recorded (so the closed→open transition
happens on the 3rd consecutive failure); an open breaker moves to
half-open only when at least 60 seconds have elapsed since the last
recorded failure; and `check_circuit_breaker` permits a call exactly when
the (possibly just-updated) state is closed or half-open. -/
theorem C7_circuit_breaker :
    (∀ ts : List ℤ, (recordFailures ts).failures = ts.length ∧
      ((recordFailures ts).state = "open" ↔ 3 ≤ ts.length)) ∧
    (∀ (now t : ℤ) (b : CircuitBreaker), b.state = "open" → b.lastFailure = some t →
      t ≤ now → (checkCircuitBreaker now b).2.state = "half_open" → 60 ≤ now - t) ∧
    (∀ (now : ℤ) (b : CircuitBreaker),
      (b.state = "closed" ∨ b.state = "open" ∨ b.state = "half_open") →
      ((checkCircuitBreaker now b).1 = true ↔
        ((checkCircuitBreaker now b).2.state = "closed" ∨
          (checkCircuitBreaker now b).2.state = "half_open"))) := by
  refine ⟨fun ts => ⟨?_, ?_⟩, ?_, ?_⟩
  · unfold recordFailures
    rw [foldl_recordFailure_failures]
    show 0 + ts.length = ts.length
    omega
  · rcases eq_or_ne ts [] with rfl | hne
    · decide
    · unfold recordFailures
      rw [foldl_recordFailure_state _ _ hne]
      show (if 3 ≤ 0 + ts.length then "open" else "closed") = "open" ↔ _
      split_ifs with h
      · simp only [true_iff]
        omega
      · constructor
        · intro hc
          exact absurd hc (by decide)
        · intro hc
          omega
  · intro now t b hstate hlast hle hhalf
    obtain ⟨f, lf, st⟩ := b
    simp only at hstate hlast
    subst hstate
    subst hlast
    by_cases hcond : timedeltaSeconds (now - t) > 60
    · unfold timedeltaSeconds pymod at hcond
      omega
    · exfalso
      simp [checkCircuitBreaker, hcond] at hhalf
  · intro now b hwf
    obtain ⟨f, lf, st⟩ := b
    simp only at hwf
    rcases hwf with rfl | rfl | rfl
    · constructor
      · intro _
        exact Or.inl rfl
      · intro _
        rfl
    · rcases lf with _ | t
      · constructor
        · intro hc
          simp [checkCircuitBreaker] at hc
        · intro hc
          rcases hc with hc | hc <;> simp [checkCircuitBreaker] at hc
      · by_cases hcond : timedeltaSeconds (now - t) > 60
        · have hres : checkCircuitBreaker now ⟨f, some t, "open"⟩ =
              (true, ⟨f, some t, "half_open"⟩) := by
            simp [checkCircuitBreaker, hcond]
          rw [hres]
          constructor
          · intro _
            exact Or.inr rfl
          · intro _
            rfl
        · have hres : checkCircuitBreaker now ⟨f, some t, "open"⟩ =
              (false, ⟨f, some t, "open"⟩) := by
            simp [checkCircuitBreaker, hcond]
          rw [hres]
          constructor
          · intro hc
            simp at hc
          · intro hc
            rcases hc with hc | hc <;> simp at hc
    · constructor
      · intro _
        exact Or.inr rfl
      · intro _
        rfl

/-- Claim C7 witness: three failures at times 0,1,2 open the breaker; at
time 100 an open breaker with last failure at time 0 permits a call (it
has become half-open, and indeed `100 - 0 ≥ 60`). -/
theorem C7_circuit_breaker_witness :
    (3 ≤ (recordFailures [0, 1, 2]).failures) ∧
    (60 ≤ (100 : ℤ) - 0) ∧
    ((checkCircuitBreaker 100 (⟨3, some 0, "open"⟩ : CircuitBreaker)).1 = true ↔
      ((checkCircuitBreaker 100 (⟨3, some 0, "open"⟩ : CircuitBreaker)).2.state = "closed" ∨
        (checkCircuitBreaker 100 (⟨3, some 0, "open"⟩ : CircuitBreaker)).2.state =
          "half_open")) :=
  ⟨by rw [(C7_circuit_breaker.1 [0, 1, 2]).1]; decide,
   C7_circuit_breaker.2.1 100 0 (⟨3, some 0, "open"⟩ : CircuitBreaker)
     rfl rfl (by decide) (by decide),
   C7_circuit_breaker.2.2 100 (⟨3, some 0, "open"⟩ : CircuitBreaker)
     (Or.inr (Or.inl rfl))⟩

/-! ### TaskDecomposer (`MetaOrchestrator._create_hierarchical_subtasks`,
`_create_concurrent_subtasks`, `_create_sequential_subtasks`)

Subtask dictionaries are built without an `"id"` key; ids are assigned by
the trailing `for i, subtask in enumerate(subtasks)` loop.  Reading
`s["id"]` before that loop runs raises `KeyError`, which the embedding
makes explicit through `Except`. -/

structure Subtask where
  id : Option String := none
  level : ℕ
  type : String
  expert : String
  description : String
  dependencies : List String
  estimatedTime : ℕ
deriving Repr, DecidableEq

/-- The lookup `s["id"]`: the dictionary access that raises `KeyError` when the id has not been
assigned yet. -/
def subtaskId (s : Subtask) : Except String String :=
  match s.id with
  | some i => .ok i
  | none => .error "KeyError: 'id'"

/-- Python `[s["id"] for s in subtasks if s["level"] == lvl]`. -/
def idsOfLevel (lvl : ℕ) (sts : List Subtask) : Except String (List String) :=
  (sts.filter (fun s => s.level = lvl)).mapM subtaskId

/-- The trailing id-assignment loop
(`subtask["id"] = f"{pre}{i+1}"` for each index `i`). -/
def assignIds (pre : String) (sts : List Subtask) : List Subtask :=
  sts.mapIdx (fun i s => { s with id := some (pre ++ toString (i + 1)) })

/-- Embedding of `MetaOrchestrator._create_hierarchical_subtasks`. -/
def createHierarchicalSubtasks (experts : List String) : Except String (List Subtask) := do
  let s₀ : List Subtask :=
    if ["backend-architect", "architect", "pm"].any (fun e => experts.contains e) then
      [{ level := 1, type := "planning", expert := "backend-architect",
         description := "System architecture and technical planning",
         dependencies := [], estimatedTime := 20 }]
    else []
  let s₁ ← experts.foldlM (fun acc e =>
    if ["react-expert", "python-expert", "nodejs-expert"].contains e then do
      let deps ← idsOfLevel 1 acc
      pure (acc ++ [{ level := 2, type := "development", expert := e,
                      description := "Core development using " ++ e,
                      dependencies := deps, estimatedTime := 30 }])
    else pure acc) s₀
  let s₂ ←
    if ["jest-expert", "cypress-expert"].any (fun e => experts.contains e) then do
      let deps ← idsOfLevel 2 s₁
      pure (s₁ ++ [{ level := 3, type := "testing", expert := "jest-expert",
                     description := "Integration testing and quality assurance",
                     dependencies := deps, estimatedTime := 25 }])
    else pure s₁
  pure (assignIds "subtask_" s₂)

/-- Embedding of `MetaOrchestrator._create_concurrent_subtasks`.  Note that the
aggregation dictionary is constructed *before* it is appended, so its
`[s["id"] for s in subtasks[:-1]]` comprehension runs over all but the
last parallel subtask, none of which has an id yet. -/
def createConcurrentSubtasks (experts : List String) : Except String (List Subtask) := do
  let s₀ : List Subtask := experts.map (fun e =>
    { level := 1, type := "parallel", expert := e,
      description := "Parallel analysis using " ++ e,
      dependencies := [], estimatedTime := 15 })
  let deps ← s₀.dropLast.mapM subtaskId
  let s₁ := s₀ ++ [{ level := 2, type := "aggregation", expert := "backend-architect",
                     description := "Aggregate results from concurrent expert analysis",
                     dependencies := deps, estimatedTime := 10 }]
  pure (assignIds "concurrent_" s₁)

/-- The `expert_order` construction of `_create_sequential_subtasks`:
`backend-architect` first when selected, then the remaining experts in
order, skipping duplicates. -/
def expertOrder (experts : List String) : List String :=
  experts.foldl (fun acc e =>
    if e ≠ "backend-architect" ∧ ¬ acc.contains e then acc ++ [e] else acc)
    (if experts.contains "backend-architect" then ["backend-architect"] else [])

/-- Embedding of `MetaOrchestrator._create_sequential_subtasks`.  The dependency
comprehension `[f"sequential_{i}" for i in range(1, i+1)]` shadows the
enumeration index, producing the ids `sequential_1 .. sequential_i` of
*all* earlier subtasks for the subtask at 0-based index `i`. -/
def createSequentialSubtasks (experts : List String) : List Subtask :=
  let order := expertOrder experts
  let sts := order.mapIdx (fun i e =>
    { level := 1, type := "sequential", expert := e,
      description := "Sequential processing by " ++ e,
      dependencies := (List.range' 1 i).map (fun j => "sequential_" ++ toString j),
      estimatedTime := 20 })
  assignIds "sequential_" sts

/-- Claim C2: the claim states that building a decomposition never fails,
but the code reads `s["id"]` for the dependency lists before the id
assignment loop has run.  The decomposition therefore raises `KeyError`
for every input that creates a dependency edge: here the hierarchical
decomposition for selected experts `[react-expert, backend-architect]`
(e.g. from the request "design the architecture with react") and the
concurrent decomposition for two selected experts. -/
theorem C2_decomposition_keyerror :
    createHierarchicalSubtasks ["react-expert", "backend-architect"] =
      .error "KeyError: 'id'" ∧
    createConcurrentSubtasks ["react-expert", "python-expert"] =
      .error "KeyError: 'id'" := by
  constructor <;> rfl

lemma foldl_order_append (l : List String) : ∀ acc : List String,
    ∃ rest, l.foldl (fun acc e =>
        if e ≠ "backend-architect" ∧ ¬ acc.contains e then acc ++ [e] else acc) acc =
      acc ++ rest ∧ List.Sublist rest l ∧ ∀ e ∈ rest, e ≠ "backend-architect" := by
  induction l with
  | nil => exact fun acc => ⟨[], by simp, List.nil_sublist [], by simp⟩
  | cons x l ih =>
    intro acc
    by_cases hx : x ≠ "backend-architect" ∧ ¬ acc.contains x
    · obtain ⟨rest, h1, h2, h3⟩ := ih (acc ++ [x])
      refine ⟨x :: rest, ?_, List.Sublist.cons₂ x h2, ?_⟩
      · rw [List.foldl_cons, if_pos hx, h1, List.append_assoc]
        rfl
      · intro e he
        rcases List.mem_cons.mp he with rfl | he
        · exact hx.1
        · exact h3 e he
    · obtain ⟨rest, h1, h2, h3⟩ := ih acc
      exact ⟨rest, by rw [List.foldl_cons, if_neg hx, h1], h2.cons x, h3⟩

lemma expertOrder_head (experts : List String) (h : "backend-architect" ∈ experts) :
    (expertOrder experts).head? = some "backend-architect" := by
  unfold expertOrder
  obtain ⟨rest, h1, -, -⟩ := foldl_order_append experts
    (if experts.contains "backend-architect" then ["backend-architect"] else [])
  rw [h1, if_pos (by simpa using h)]
  rfl

/-- First occurrences of a list, in order: each element is kept at its
first position and later duplicates are dropped. -/
def firstOcc : List String → List String
  | [] => []
  | x :: xs => x :: (firstOcc xs).filter (fun y => decide (y ≠ x))

/-- Modelled from the amended claim's words, for comparison with the
source-side `expertOrder`: the remaining (non-architecture) selected
workers in selection order, each kept at its first occurrence. -/
def remainingOrder (experts : List String) : List String :=
  firstOcc (experts.filter (fun e => decide (e ≠ "backend-architect")))

lemma mem_firstOcc (m : List String) (x : String) : x ∈ firstOcc m ↔ x ∈ m := by
  induction m with
  | nil => simp [firstOcc]
  | cons y ys ih =>
    simp only [firstOcc, List.mem_cons, List.mem_filter, ih, decide_eq_true_eq]
    constructor
    · rintro (rfl | ⟨hx, _⟩)
      · exact Or.inl rfl
      · exact Or.inr hx
    · rintro (rfl | hx)
      · exact Or.inl rfl
      · by_cases hxy : x = y
        · exact Or.inl hxy
        · exact Or.inr ⟨hx, hxy⟩

lemma filter_ext {q₁ q₂ : String → Bool} (h : ∀ a, q₁ a = q₂ a) (l : List String) :
    l.filter q₁ = l.filter q₂ := by
  induction l with
  | nil => rfl
  | cons x xs ih =>
    simp only [List.filter_cons, h x, ih]

/-- The `expert_order` fold appends, after the accumulator, exactly the
first occurrences of the non-architecture workers not already in the
accumulator. -/
lemma foldl_order_eq (l : List String) : ∀ acc : List String,
    l.foldl (fun acc e =>
        if e ≠ "backend-architect" ∧ ¬ acc.contains e then acc ++ [e] else acc) acc =
      acc ++ (firstOcc (l.filter (fun e => decide (e ≠ "backend-architect")))).filter
        (fun e => decide (e ∉ acc)) := by
  induction l with
  | nil =>
    intro acc
    simp [firstOcc]
  | cons x xs ih =>
    intro acc
    rw [List.foldl_cons]
    by_cases hBA : x = "backend-architect"
    · rw [if_neg (by simp [hBA])]
      rw [ih acc]
      have hfx : (x :: xs).filter (fun e => decide (e ≠ "backend-architect")) =
          xs.filter (fun e => decide (e ≠ "backend-architect")) := by
        simp [List.filter_cons, hBA]
      rw [hfx]
    · have hfx : (x :: xs).filter (fun e => decide (e ≠ "backend-architect")) =
          x :: xs.filter (fun e => decide (e ≠ "backend-architect")) := by
        simp [List.filter_cons, hBA]
      rw [hfx]
      rw [show firstOcc (x :: xs.filter (fun e => decide (e ≠ "backend-architect"))) =
          x :: (firstOcc (xs.filter (fun e => decide (e ≠ "backend-architect")))).filter
            (fun y => decide (y ≠ x)) from rfl]
      by_cases hmem : x ∈ acc
      · rw [if_neg (by simp [hmem])]
        rw [ih acc]
        congr 1
        rw [List.filter_cons]
        have hx : (decide (x ∉ acc) : Bool) = false := by simp [hmem]
        rw [hx]
        simp only [Bool.false_eq_true, if_false]
        rw [List.filter_filter]
        apply filter_ext
        intro a
        by_cases ha : a ∈ acc
        · simp [ha]
        · have hax : a ≠ x := fun h => ha (h ▸ hmem)
          simp [ha, hax]
      · rw [if_pos ⟨hBA, by simpa using hmem⟩]
        rw [ih (acc ++ [x])]
        rw [List.filter_cons]
        have hx : (decide (x ∉ acc) : Bool) = true := by simp [hmem]
        rw [hx]
        simp only [if_true]
        rw [List.filter_filter, List.append_assoc]
        congr 1
        rw [List.singleton_append]
        congr 1
        apply filter_ext
        intro a
        by_cases hax : a = x
        · subst hax
          simp [hmem]
        · by_cases ha : a ∈ acc
          · simp [ha, hax, List.mem_append]
          · simp [ha, hax, List.mem_append]

/-- Complete characterization of the `expert_order` construction: the
architecture-capable worker (when selected) followed by the remaining
selected workers in selection order, first occurrences kept. -/
lemma expertOrder_eq (experts : List String) :
    expertOrder experts =
      (if "backend-architect" ∈ experts then ["backend-architect"] else []) ++
        remainingOrder experts := by
  unfold expertOrder remainingOrder
  rw [foldl_order_eq]
  have hbase : (if experts.contains "backend-architect" then ["backend-architect"] else [])
      = (if "backend-architect" ∈ experts then ["backend-architect"] else []) := by
    by_cases h : "backend-architect" ∈ experts <;> simp [h]
  rw [hbase]
  congr 1
  apply List.filter_eq_self.mpr
  intro a ha
  have hane : a ≠ "backend-architect" := by
    have := (List.mem_filter.mp ((mem_firstOcc _ a).mp ha)).2
    simpa using this
  by_cases h : "backend-architect" ∈ experts <;> simp [h, hane]

lemma createSequentialSubtasks_length (experts : List String) :
    (createSequentialSubtasks experts).length = (expertOrder experts).length := by
  simp [createSequentialSubtasks, assignIds]

lemma createSequentialSubtasks_get (experts : List String) (i : ℕ)
    (hi : i < (createSequentialSubtasks experts).length)
    (hi' : i < (expertOrder experts).length) :
    (createSequentialSubtasks experts).get ⟨i, hi⟩ =
      { id := some ("sequential_" ++ toString (i + 1)), level := 1, type := "sequential",
        expert := (expertOrder experts).get ⟨i, hi'⟩,
        description := "Sequential processing by " ++ (expertOrder experts).get ⟨i, hi'⟩,
        dependencies := (List.range' 1 i).map (fun j => "sequential_" ++ toString j),
        estimatedTime := 20 } := by
  simp [createSequentialSubtasks, assignIds, List.get_eq_getElem, List.getElem_mapIdx]

/-- Claim C8 counterexample: for the selected workers
`[backend-architect, react-expert, python-expert]` the third sequential
subtask depends on `sequential_1` *and* `sequential_2`, not only on its
immediate predecessor `sequential_2`. -/
theorem C8_sequential_deps_counterexample :
    (createSequentialSubtasks ["backend-architect", "react-expert", "python-expert"]).map
        Subtask.dependencies =
      [[], ["sequential_1"], ["sequential_1", "sequential_2"]] ∧
    [[], ["sequential_1"], ["sequential_1", "sequential_2"]] ≠
      ([[], ["sequential_1"], ["sequential_2"]] : List (List String)) := by
  constructor
  · rfl
  · decide

/-- Claim C8 as amended: for every non-empty selected-worker list the
sequential decomposition orders an architecture-capable worker
(backend-architect) first with the remaining workers following in
selection order (`expertOrder` equals the architecture prefix followed by
`remainingOrder`, the complete selection order with each worker at its
first occurrence, so in particular every selected worker appears), and
the subtask at 0-based index `i` carries id `sequential_{i+1}` and
depends on *all* of its predecessors `sequential_1 .. sequential_i` (so
the first subtask has no dependencies). -/
theorem C8_sequential_subtasks_amended (experts : List String) (hne : experts ≠ []) :
    (createSequentialSubtasks experts).length = (expertOrder experts).length ∧
    (∀ i (hi : i < (createSequentialSubtasks experts).length),
      ((createSequentialSubtasks experts).get ⟨i, hi⟩).id =
        some ("sequential_" ++ toString (i + 1)) ∧
      ((createSequentialSubtasks experts).get ⟨i, hi⟩).dependencies =
        (List.range' 1 i).map (fun j => "sequential_" ++ toString j) ∧
      ((createSequentialSubtasks experts).get ⟨i, hi⟩).expert =
        (expertOrder experts).getD i "" ∧
      ((createSequentialSubtasks experts).get ⟨i, hi⟩).level = 1 ∧
      ((createSequentialSubtasks experts).get ⟨i, hi⟩).estimatedTime = 20) ∧
    ("backend-architect" ∈ experts →
      (expertOrder experts).head? = some "backend-architect") ∧
    expertOrder experts =
      (if "backend-architect" ∈ experts then ["backend-architect"] else []) ++
        remainingOrder experts ∧
    (∀ e ∈ experts, e ∈ expertOrder experts) := by
  refine ⟨createSequentialSubtasks_length experts, ?_, expertOrder_head experts,
    expertOrder_eq experts, ?_⟩
  · intro i hi
    have hi' : i < (expertOrder experts).length := by
      rw [← createSequentialSubtasks_length experts]
      exact hi
    rw [createSequentialSubtasks_get experts i hi hi']
    refine ⟨rfl, rfl, ?_, rfl, rfl⟩
    rw [List.getD_eq_getElem _ _ hi']
    rfl
  · intro e he
    rw [expertOrder_eq experts]
    by_cases heBA : e = "backend-architect"
    · subst heBA
      rw [if_pos he]
      exact List.mem_append_left _ (by simp)
    · refine List.mem_append_right _ ?_
      unfold remainingOrder
      exact (mem_firstOcc _ e).mpr (List.mem_filter.mpr ⟨he, by simpa using heBA⟩)

/-- Claim C8 witness: for workers `[backend-architect, react-expert]` the
order starts with the architecture-capable worker. -/
theorem C8_sequential_subtasks_amended_witness :
    (expertOrder ["backend-architect", "react-expert"]).head? = some "backend-architect" :=
  (C8_sequential_subtasks_amended ["backend-architect", "react-expert"]
    (by decide)).2.2.1 (by decide)

/-! ### Conversation engine entry point
(`MultiAgentConversationEngine.start_conversation`)

The four supported pattern executors perform external worker invocations
(with injected randomness), so their outcomes are abstracted by an oracle
`handlers : ConversationPattern → Except String ConversationResult`; an
`Except.error` models any exception raised inside the executor.  The
`uuid4` thread id is passed explicitly.  `start_conversation` itself is
embedded faithfully: the thread is registered in `active_threads` before
dispatch, unsupported patterns raise `ValueError` inside the `try` block,
and the `except` branch converts any exception into a failure result and
marks the thread failed. -/

inductive ConversationPattern where
  | sequential_chain
  | concurrent_processing
  | group_chat_debate
  | maker_checker_loop
  | handoff_routing
  | hierarchical_coordination
deriving DecidableEq, Repr

/-- Python `str(pattern)` for the `ValueError` message text. -/
def patternName : ConversationPattern → String
  | .sequential_chain => "ConversationPattern.SEQUENTIAL_CHAIN"
  | .concurrent_processing => "ConversationPattern.CONCURRENT_PROCESSING"
  | .group_chat_debate => "ConversationPattern.GROUP_CHAT_DEBATE"
  | .maker_checker_loop => "ConversationPattern.MAKER_CHECKER_LOOP"
  | .handoff_routing => "ConversationPattern.HANDOFF_ROUTING"
  | .hierarchical_coordination => "ConversationPattern.HIERARCHICAL_COORDINATION"

structure ConversationMessage where
  expertName : String := ""
  content : String := ""
  confidence : ℚ := 0
deriving Repr, DecidableEq

structure ConversationThread where
  id : String
  topic : String
  pattern : ConversationPattern
  participants : List String
  messages : List ConversationMessage := []
  status : String := "active"
deriving Repr, DecidableEq

structure ConversationResult where
  threadId : String
  finalResponse : String
  participatingExperts : List String
  consensusLevel : ℚ
  conversationDuration : ℚ
  messageCount : ℕ
  success : Bool
deriving Repr, DecidableEq

/-- The pattern dispatch inside the `try` block: the four supported
patterns run their executor (the oracle), anything else raises
`ValueError(f"Unsupported conversation pattern: {pattern}")`. -/
def runPattern (handlers : ConversationPattern → Except String ConversationResult)
    (pattern : ConversationPattern) : Except String ConversationResult :=
  match pattern with
  | .sequential_chain => handlers .sequential_chain
  | .concurrent_processing => handlers .concurrent_processing
  | .group_chat_debate => handlers .group_chat_debate
  | .maker_checker_loop => handlers .maker_checker_loop
  | p => .error ("Unsupported conversation pattern: " ++ patternName p)

/-- Mutating `thread.status` through the `active_threads` map. -/
def setThreadStatus (threads : List (String × ConversationThread))
    (tid status : String) : List (String × ConversationThread) :=
  threads.map (fun p => if p.1 = tid then (p.1, { p.2 with status := status }) else p)

/-- Embedding of `MultiAgentConversationEngine.start_conversation`: returns the
`ConversationResult` together with the updated `active_threads` map. -/
def startConversation (handlers : ConversationPattern → Except String ConversationResult)
    (threadId request : String) (pattern : ConversationPattern)
    (selectedExperts : List String) (threads : List (String × ConversationThread)) :
    ConversationResult × List (String × ConversationThread) :=
  let thread : ConversationThread :=
    { id := threadId, topic := request, pattern := pattern, participants := selectedExperts }
  let threads₁ := threads ++ [(threadId, thread)]
  match runPattern handlers pattern with
  | .ok result => (result, setThreadStatus threads₁ threadId "completed")
  | .error e =>
    ({ threadId := threadId,
       finalResponse := "Conversation failed: " ++ e,
       participatingExperts := selectedExperts,
       consensusLevel := 0,
       conversationDuration := 0,
       messageCount := 0,
       success := false }, setThreadStatus threads₁ threadId "failed")

/-- Claim C9 counterexample: starting a conversation with the unsupported
pattern `HANDOFF_ROUTING` on an empty active-thread map *does* add a
thread to the map, and that thread ends in the terminal status "failed" —
contradicting the claim that no thread is added and none reaches a
terminal status. -/
theorem C9_unsupported_pattern_counterexample :
    ((startConversation (fun _ => Except.error "unused") "t1" "r"
        ConversationPattern.handoff_routing ["e1"] []).2).map
      (fun p => (p.1, p.2.status)) = [("t1", "failed")] := by
  rfl

lemma setThreadStatus_fresh (threads : List (String × ConversationThread))
    (tid status : String) (hfresh : ∀ p ∈ threads, p.1 ≠ tid) :
    setThreadStatus threads tid status = threads := by
  unfold setThreadStatus
  rw [List.map_congr_left (fun p hp => if_neg (hfresh p hp))]
  exact List.map_id threads

/-- Claim C9 as amended: an unsupported pattern is handled synchronously
and no executor runs, but a session *is* created: the request returns a
failure `ConversationResult` (success false, consensus 0, message count 0,
error text naming the unsupported pattern), and the thread is added to the
active-thread map with terminal status "failed". -/
theorem C9_unsupported_pattern_amended
    (handlers : ConversationPattern → Except String ConversationResult)
    (threadId request : String) (selectedExperts : List String)
    (threads : List (String × ConversationThread)) (pattern : ConversationPattern)
    (hp : pattern = ConversationPattern.handoff_routing ∨
      pattern = ConversationPattern.hierarchical_coordination)
    (hfresh : ∀ p ∈ threads, p.1 ≠ threadId) :
    (startConversation handlers threadId request pattern selectedExperts threads).1.success
        = false ∧
    (startConversation handlers threadId request pattern selectedExperts
        threads).1.consensusLevel = 0 ∧
    (startConversation handlers threadId request pattern selectedExperts
        threads).1.messageCount = 0 ∧
    (startConversation handlers threadId request pattern selectedExperts
        threads).1.finalResponse =
      "Conversation failed: Unsupported conversation pattern: " ++ patternName pattern ∧
    (startConversation handlers threadId request pattern selectedExperts threads).2 =
      threads ++ [(threadId, { id := threadId, topic := request, pattern := pattern,
                               participants := selectedExperts, status := "failed" })] := by
  have hrun : runPattern handlers pattern =
      .error ("Unsupported conversation pattern: " ++ patternName pattern) := by
    rcases hp with rfl | rfl <;> rfl
  have hmap : setThreadStatus
      (threads ++ [(threadId, { id := threadId, topic := request, pattern := pattern,
                                participants := selectedExperts })]) threadId "failed" =
      threads ++ [(threadId, { id := threadId, topic := request, pattern := pattern,
                               participants := selectedExperts, status := "failed" })] := by
    unfold setThreadStatus
    rw [List.map_append]
    congr 1
    · rw [List.map_congr_left (fun p hp => if_neg (hfresh p hp))]
      exact List.map_id threads
    · simp
  simp only [startConversation, hrun, hmap]
  refine ⟨?_, ?_, ?_, ?_, ?_⟩ <;> first
    | trivial
    | rw [← String.append_assoc]

/-- Claim C9 witness: the amended behaviour at a concrete unsupported
call — success is false. -/
theorem C9_unsupported_pattern_amended_witness :
    (startConversation (fun _ => Except.error "unused") "t1" "r"
      ConversationPattern.hierarchical_coordination ["e1"] []).1.success = false :=
  (C9_unsupported_pattern_amended (fun _ => Except.error "unused") "t1" "r" ["e1"] []
    ConversationPattern.hierarchical_coordination (Or.inr rfl) (by simp)).1

/-- Claim C10: `start_conversation` always returns a result (the
embedding is a total function); whenever the dispatched executor raises
(`runPattern` yields an error), the returned result has success false,
consensus level 0, message count 0, a final response carrying the error
message, and every thread under the request's id in the returned
active-thread map carries status "failed"; when the executor returns
normally its result is passed through and the thread is marked
"completed". -/
theorem C10_start_conversation_no_propagation
    (handlers : ConversationPattern → Except String ConversationResult)
    (threadId request : String) (pattern : ConversationPattern)
    (selectedExperts : List String) (threads : List (String × ConversationThread)) :
    (∀ e, runPattern handlers pattern = .error e →
      (startConversation handlers threadId request pattern selectedExperts threads).1 =
        { threadId := threadId, finalResponse := "Conversation failed: " ++ e,
          participatingExperts := selectedExperts, consensusLevel := 0,
          conversationDuration := 0, messageCount := 0, success := false } ∧
      (∀ p ∈ (startConversation handlers threadId request pattern selectedExperts threads).2,
        p.1 = threadId → p.2.status = "failed")) ∧
    (∀ r, runPattern handlers pattern = .ok r →
      (startConversation handlers threadId request pattern selectedExperts threads).1 = r ∧
      (∀ p ∈ (startConversation handlers threadId request pattern selectedExperts threads).2,
        p.1 = threadId → p.2.status = "completed")) := by
  constructor
  · intro e he
    simp only [startConversation, he]
    refine ⟨by trivial, ?_⟩
    intro p hp hpid
    unfold setThreadStatus at hp
    obtain ⟨q, hq, rfl⟩ := List.mem_map.mp hp
    by_cases hqid : q.1 = threadId
    · rw [if_pos hqid]
    · rw [if_neg hqid]
      rw [if_neg hqid] at hpid
      exact absurd hpid hqid
  · intro r hr
    simp only [startConversation, hr]
    refine ⟨by trivial, ?_⟩
    intro p hp hpid
    unfold setThreadStatus at hp
    obtain ⟨q, hq, rfl⟩ := List.mem_map.mp hp
    by_cases hqid : q.1 = threadId
    · rw [if_pos hqid]
    · rw [if_neg hqid]
      rw [if_neg hqid] at hpid
      exact absurd hpid hqid

/-- Claim C10 witness: with an executor that raises "boom" on the
supported pattern `SEQUENTIAL_CHAIN`, the call returns (rather than
propagating) a failure result carrying the message. -/
theorem C10_start_conversation_no_propagation_witness :
    (startConversation (fun _ => Except.error "boom") "t1" "r"
        ConversationPattern.sequential_chain ["e1"] []).1 =
      { threadId := "t1", finalResponse := "Conversation failed: boom",
        participatingExperts := ["e1"], consensusLevel := 0,
        conversationDuration := 0, messageCount := 0, success := false } :=
  ((C10_start_conversation_no_propagation (fun _ => Except.error "boom") "t1" "r"
    ConversationPattern.sequential_chain ["e1"] []).1 "boom" rfl).1

/-! ### WorkerSelector (`MetaOrchestrator.select_experts` and
`_calculate_expert_score`)

The expert library is the dictionary literal of
`MetaOrchestrator._load_expert_library` (7 entries in the source).  The
library entries carry no `"name"` key (`expert_data.get("name")` is
`None` for them), which the embedding records as `name := none`.
`sorted(expert_scores.items(), key=lambda x: x[1], reverse=True)` is the
stable descending sort by score; `List.insertionSort` with the relation
"left score at least right score" is also a stable sort for that order,
and any two stable sorts of the same list under the same preorder agree,
so it embeds Python's `sorted` faithfully. -/

inductive ExpertDomain where
  | frontend
  | backend
  | database
  | devops
  | testing
  | security
  | mobile
  | ai_ml
  | product
  | architecture
  | custom
deriving DecidableEq, Repr

structure ExpertData where
  name : Option String := none
  domain : ExpertDomain
  keywords : List String
  capabilities : List String
  tools : List String
  performanceBaseline : ℚ
deriving Repr

/-- Embedding of `MetaOrchestrator._load_expert_library`, in dictionary insertion
order. -/
def expertLibrary : List (String × ExpertData) :=
  [("react-expert",
    { domain := .frontend,
      keywords := ["react", "hooks", "components", "jsx", "useState", "useEffect"],
      capabilities := ["component_development", "state_management", "hooks_optimization"],
      tools := ["react", "redux", "next.js", "styled-components"],
      performanceBaseline := 9/2 }),
   ("vue-expert",
    { domain := .frontend,
      keywords := ["vue", "v-model", "vuex", "vue router"],
      capabilities := ["vue_components", "vuex_store", "vue_composition"],
      tools := ["vue.js", "nuxt.js", "vuex", "vue-router"],
      performanceBaseline := 22/5 }),
   ("angular-expert",
    { domain := .frontend,
      keywords := ["angular", "modules", "services", "decorators"],
      capabilities := ["angular_modules", "dependency_injection", "services"],
      tools := ["angular", "typescript", "rxjs", "angular-material"],
      performanceBaseline := 43/10 }),
   ("backend-architect",
    { domain := .architecture,
      keywords := ["architecture", "system design", "microservices", "scalability"],
      capabilities := ["system_architecture", "api_design", "scalability_planning"],
      tools := ["design_patterns", "architecture_frameworks", "monitoring_tools"],
      performanceBaseline := 24/5 }),
   ("python-expert",
    { domain := .backend,
      keywords := ["python", "django", "flask", "fastapi"],
      capabilities := ["python_development", "django_apps", "api_development"],
      tools := ["python", "django", "flask", "fastapi", "pandas"],
      performanceBaseline := 23/5 }),
   ("postgres-expert",
    { domain := .database,
      keywords := ["postgresql", "psql", "postgres", "sql"],
      capabilities := ["database_design", "query_optimization", "performance_tuning"],
      tools := ["postgresql", "pgadmin", "sql", "indexing"],
      performanceBaseline := 9/2 }),
   ("docker-expert",
    { domain := .devops,
      keywords := ["docker", "containers", "dockerfile"],
      capabilities := ["containerization", "docker_optimization", "multi_stage_builds"],
      tools := ["docker", "docker-compose", "kubernetes", "docker-registry"],
      performanceBaseline := 22/5 })]

/-- The session's `expertise_cache` entries read by the selector
(`"preferred_experts"` and `"recent_experts"` keys, both possibly
absent). -/
structure SessionContext where
  preferredExperts : Option (List String) := none
  recentExperts : Option (List String) := none

/-- Python `str.split(sep)` for a single-character separator. -/
def splitOnChar (sep : Char) : List Char → List (List Char)
  | [] => [[]]
  | c :: rest =>
    let r := splitOnChar sep rest
    if c = sep then [] :: r
    else
      match r with
      | [] => [[c]]
      | h :: t => (c :: h) :: t

/-- Python `capability.split('_')`. -/
def splitUnderscore (s : String) : List String :=
  (splitOnChar '_' s.toList).map (fun l => String.mk l)

/-- Keyword matching term: `keyword_matches / len(keywords)`. -/
def keywordScore (requestLower : String) (d : ExpertData) : ℚ :=
  ((d.keywords.filter (fun k => strContains requestLower k)).length : ℚ) /
    (d.keywords.length : ℚ)

/-- Capability relevance term: a capability matches when any of its
underscore-separated parts occurs in the request. -/
def capabilityScore (requestLower : String) (d : ExpertData) : ℚ :=
  ((d.capabilities.filter (fun c =>
      (splitUnderscore c).any (fun part => strContains requestLower part))).length : ℚ) /
    (d.capabilities.length : ℚ)

/-- Context preference term: 1 when `expert_data.get("name")` is in the
session's preferred-experts list (0 when the key is absent, and 0 for all
library entries, which have no `"name"` key). -/
def contextScore (d : ExpertData) (ctx : SessionContext) : ℚ :=
  match ctx.preferredExperts with
  | some pref =>
    if (match d.name with
        | some n => pref.contains n
        | none => false) then 1 else 0
  | none => 0

/-- Recent-usage term over `recent_experts[-3:]`. -/
def recentScore (d : ExpertData) (ctx : SessionContext) : ℚ :=
  match ctx.recentExperts with
  | some recent =>
    if (match d.name with
        | some n => (recent.drop (recent.length - 3)).contains n
        | none => false) then 1 else 0
  | none => 0

/-- Embedding of `MetaOrchestrator._calculate_expert_score`. -/
def calculateExpertScore (request : String) (d : ExpertData) (ctx : SessionContext) : ℚ :=
  let requestLower := String.mk (lowerList request.toList)
  min (keywordScore requestLower d * (4/10) + capabilityScore requestLower d * (3/10) +
    contextScore d ctx * (2/10) + recentScore d ctx * (1/10)) 1

/-- The `ExpertPerformance` dataclass (timestamps as integers). -/
structure ExpertPerformance where
  expertName : String
  responseQuality : ℚ
  taskCompletionRate : ℚ
  userSatisfaction : ℚ
  collaborationScore : ℚ
  switchingEfficiency : ℚ
  totalTasks : ℕ
  lastUpdated : ℤ

/-- The performance modifier blend of `select_experts`. -/
def performanceModifier (p : ExpertPerformance) : ℚ :=
  (p.responseQuality * (3/10) + p.taskCompletionRate * (3/10) +
   p.collaborationScore * (2/10) + p.switchingEfficiency * (2/10)) / 100

/-- The per-expert score after the performance-modifier pass: experts
with no performance record keep their raw score. -/
def adjustedExpertScore (request : String) (ctx : SessionContext)
    (perf : String → Option ExpertPerformance) (nd : String × ExpertData) : ℚ :=
  match perf nd.1 with
  | some p => calculateExpertScore request nd.2 ctx * performanceModifier p
  | none => calculateExpertScore request nd.2 ctx

/-- The `expert_scores` map after the modifier pass, in registry insertion
order. -/
def scoredExperts (request : String) (ctx : SessionContext)
    (perf : String → Option ExpertPerformance) : List (String × ℚ) :=
  expertLibrary.map (fun nd => (nd.1, adjustedExpertScore request ctx perf nd))

/-- The sort order of `sorted(..., key=lambda x: x[1], reverse=True)`:
left entry's score at least the right entry's score. -/
def scoreDescRel : (String × ℚ) → (String × ℚ) → Prop := fun a b => b.2 ≤ a.2

instance : DecidableRel scoreDescRel :=
  fun a b => inferInstanceAs (Decidable (b.2 ≤ a.2))

instance : IsTotal (String × ℚ) scoreDescRel := ⟨fun a b => le_total b.2 a.2⟩

instance : IsTrans (String × ℚ) scoreDescRel := ⟨fun _ _ _ h1 h2 => le_trans h2 h1⟩

/-- The stable descending sort of the scored experts. -/
def sortedExperts (request : String) (ctx : SessionContext)
    (perf : String → Option ExpertPerformance) : List (String × ℚ) :=
  List.insertionSort scoreDescRel (scoredExperts request ctx perf)

/-- The scored entries surviving the threshold and the cap:
`[expert for expert, score in sorted_experts if score > 0.3][:5]`,
before projecting away the scores. -/
def selectedExpertsScored (request : String) (ctx : SessionContext)
    (perf : String → Option ExpertPerformance) : List (String × ℚ) :=
  ((sortedExperts request ctx perf).filter (fun q => (3/10 : ℚ) < q.2)).take 5

/-- Embedding of `MetaOrchestrator.select_experts`. -/
def selectExperts (request : String) (ctx : SessionContext)
    (perf : String → Option ExpertPerformance) : List String :=
  (((sortedExperts request ctx perf).filter (fun q => (3/10 : ℚ) < q.2)).map
    Prod.fst).take 5

lemma keywordScore_nonneg (requestLower : String) (d : ExpertData) :
    0 ≤ keywordScore requestLower d := by
  unfold keywordScore
  positivity

lemma capabilityScore_nonneg (requestLower : String) (d : ExpertData) :
    0 ≤ capabilityScore requestLower d := by
  unfold capabilityScore
  positivity

lemma contextScore_nonneg (d : ExpertData) (ctx : SessionContext) :
    0 ≤ contextScore d ctx := by
  cases hp : ctx.preferredExperts with
  | none => simp [contextScore, hp]
  | some pref =>
    simp only [contextScore, hp]
    split_ifs <;> norm_num

lemma recentScore_nonneg (d : ExpertData) (ctx : SessionContext) :
    0 ≤ recentScore d ctx := by
  cases hp : ctx.recentExperts with
  | none => simp [recentScore, hp]
  | some recent =>
    simp only [recentScore, hp]
    split_ifs <;> norm_num

lemma calculateExpertScore_bounds (request : String) (d : ExpertData)
    (ctx : SessionContext) :
    0 ≤ calculateExpertScore request d ctx ∧ calculateExpertScore request d ctx ≤ 1 := by
  unfold calculateExpertScore
  constructor
  · apply le_min _ zero_le_one
    have hk := keywordScore_nonneg (String.mk (lowerList request.toList)) d
    have hc := capabilityScore_nonneg (String.mk (lowerList request.toList)) d
    have hx := contextScore_nonneg d ctx
    have hr := recentScore_nonneg d ctx
    have h410 : (0:ℚ) ≤ 4/10 := by norm_num
    have h310 : (0:ℚ) ≤ 3/10 := by norm_num
    have h210 : (0:ℚ) ≤ 2/10 := by norm_num
    have h110 : (0:ℚ) ≤ 1/10 := by norm_num
    exact add_nonneg (add_nonneg (add_nonneg (mul_nonneg hk h410) (mul_nonneg hc h310))
      (mul_nonneg hx h210)) (mul_nonneg hr h110)
  · exact min_le_right _ _

lemma expertLibrary_names_nodup : (expertLibrary.map Prod.fst).Nodup := by
  decide

lemma scoredExperts_names (request : String) (ctx : SessionContext)
    (perf : String → Option ExpertPerformance) :
    (scoredExperts request ctx perf).map Prod.fst = expertLibrary.map Prod.fst := by
  unfold scoredExperts
  rw [List.map_map]
  exact List.map_congr_left (fun a _ => rfl)

lemma scoredExperts_nodup (request : String) (ctx : SessionContext)
    (perf : String → Option ExpertPerformance) :
    (scoredExperts request ctx perf).Nodup := by
  have h : ((scoredExperts request ctx perf).map Prod.fst).Nodup := by
    rw [scoredExperts_names]
    exact expertLibrary_names_nodup
  exact h.of_map _

lemma pair_sublist_of_lt {α : Type} :
    ∀ (l : List α) (i j : ℕ) (hi : i < l.length) (hj : j < l.length), i < j →
      List.Sublist [l.get ⟨i, hi⟩, l.get ⟨j, hj⟩] l := by
  intro l
  induction l with
  | nil =>
    intro i j hi _ _
    exact absurd hi (by simp)
  | cons x xs ih =>
    intro i j hi hj hij
    cases i with
    | zero =>
      cases j with
      | zero => omega
      | succ j =>
        have hj' : j < xs.length := by simpa using hj
        exact List.Sublist.cons₂ x (List.singleton_sublist.mpr (xs.get_mem _ _))
    | succ i =>
      cases j with
      | zero => omega
      | succ j =>
        exact List.Sublist.cons x
          (ih i j (by simpa using hi) (by simpa using hj) (by omega))

lemma pair_sublist_antisymm {α : Type} :
    ∀ {l : List α}, l.Nodup → ∀ {a b : α},
      List.Sublist [a, b] l → List.Sublist [b, a] l → a = b := by
  intro l
  induction l with
  | nil =>
    intro _ a b hab _
    exact absurd hab (by simp)
  | cons x xs ih =>
    intro hnd a b hab hba
    cases hab with
    | cons _ h =>
      cases hba with
      | cons _ h' => exact ih (List.Nodup.of_cons hnd) h h'
      | cons₂ _ h' =>
        have hmem : x ∈ xs := h.subset (by simp)
        exact absurd hmem (List.nodup_cons.mp hnd).1
    | cons₂ _ h =>
      cases hba with
      | cons _ h' =>
        have hmem : x ∈ xs := h'.subset (by simp)
        exact absurd hmem (List.nodup_cons.mp hnd).1
      | cons₂ _ h' => rfl

lemma pair_sublist_of_mem {α : Type} :
    ∀ {l : List α} {a b : α}, a ∈ l → b ∈ l → a ≠ b →
      List.Sublist [a, b] l ∨ List.Sublist [b, a] l := by
  intro l
  induction l with
  | nil => simp
  | cons x xs ih =>
    intro a b ha hb hne
    rcases List.mem_cons.mp ha with rfl | ha'
    · have hb' : b ∈ xs := by
        rcases List.mem_cons.mp hb with rfl | h
        · exact absurd rfl hne
        · exact h
      exact Or.inl (List.Sublist.cons₂ a (List.singleton_sublist.mpr hb'))
    · rcases List.mem_cons.mp hb with rfl | hb'
      · exact Or.inr (List.Sublist.cons₂ b (List.singleton_sublist.mpr ha'))
      · rcases ih ha' hb' hne with h | h
        · exact Or.inl (h.cons x)
        · exact Or.inr (h.cons x)

lemma sortedExperts_sorted (request : String) (ctx : SessionContext)
    (perf : String → Option ExpertPerformance) :
    (sortedExperts request ctx perf).Pairwise scoreDescRel :=
  List.sorted_insertionSort scoreDescRel (scoredExperts request ctx perf)

lemma sortedExperts_nodup (request : String) (ctx : SessionContext)
    (perf : String → Option ExpertPerformance) :
    (sortedExperts request ctx perf).Nodup :=
  (List.perm_insertionSort scoreDescRel (scoredExperts request ctx perf)).nodup_iff.mpr
    (scoredExperts_nodup request ctx perf)

/-- Stability of the embedded sort: a tied pair appearing in the sorted
output also appears, in the same order, in the registry-ordered scored
list. -/
lemma sortedExperts_ties (request : String) (ctx : SessionContext)
    (perf : String → Option ExpertPerformance) {q1 q2 : String × ℚ}
    (hsub : List.Sublist [q1, q2] (sortedExperts request ctx perf))
    (heq : q1.2 = q2.2) :
    List.Sublist [q1, q2] (scoredExperts request ctx perf) := by
  have hperm := List.perm_insertionSort scoreDescRel (scoredExperts request ctx perf)
  have hq1 : q1 ∈ scoredExperts request ctx perf :=
    hperm.mem_iff.mp (hsub.subset (by simp))
  have hq2 : q2 ∈ scoredExperts request ctx perf :=
    hperm.mem_iff.mp (hsub.subset (by simp))
  have hne : q1 ≠ q2 := by
    intro h
    subst h
    have : ([q1, q1] : List (String × ℚ)).Nodup :=
      hsub.nodup (sortedExperts_nodup request ctx perf)
    simp at this
  rcases pair_sublist_of_mem hq1 hq2 hne with h | h
  · exact h
  · exfalso
    have hrel : scoreDescRel q2 q1 := le_of_eq heq
    have hsub' : List.Sublist [q2, q1] (sortedExperts request ctx perf) :=
      List.pair_sublist_insertionSort hrel h
    exact hne (pair_sublist_antisymm (sortedExperts_nodup request ctx perf) hsub hsub')

lemma selectedScored_sublist (request : String) (ctx : SessionContext)
    (perf : String → Option ExpertPerformance) :
    List.Sublist (selectedExpertsScored request ctx perf)
      (sortedExperts request ctx perf) :=
  (List.take_sublist 5 _).trans (List.filter_sublist _)

/-- Claim C3: `select_experts` returns at most 5 workers; its output is
the name projection of the thresholded scored list, on which every
performance-adjusted score exceeds 0.30 strictly; scores are
non-increasing along the output; tied entries appear in registry
insertion order (the tied pair is a sublist of the registry-ordered
scored list); workers with no performance record keep their raw score;
and every library worker's raw score is clipped to `[0, 1]`. -/
theorem C3_select_experts (request : String) (ctx : SessionContext)
    (perf : String → Option ExpertPerformance) :
    (selectExperts request ctx perf).length ≤ 5 ∧
    selectExperts request ctx perf =
      (selectedExpertsScored request ctx perf).map Prod.fst ∧
    (∀ q ∈ selectedExpertsScored request ctx perf, (3/10 : ℚ) < q.2) ∧
    (selectedExpertsScored request ctx perf).Pairwise (fun a b => b.2 ≤ a.2) ∧
    (∀ i j (hi : i < (selectedExpertsScored request ctx perf).length)
      (hj : j < (selectedExpertsScored request ctx perf).length), i < j →
      ((selectedExpertsScored request ctx perf).get ⟨i, hi⟩).2 =
        ((selectedExpertsScored request ctx perf).get ⟨j, hj⟩).2 →
      List.Sublist [(selectedExpertsScored request ctx perf).get ⟨i, hi⟩,
        (selectedExpertsScored request ctx perf).get ⟨j, hj⟩]
        (scoredExperts request ctx perf)) ∧
    (∀ nd ∈ expertLibrary, perf nd.1 = none →
      adjustedExpertScore request ctx perf nd = calculateExpertScore request nd.2 ctx) ∧
    (∀ nd ∈ expertLibrary, 0 ≤ calculateExpertScore request nd.2 ctx ∧
      calculateExpertScore request nd.2 ctx ≤ 1) := by
  refine ⟨?_, ?_, ?_, ?_, ?_, ?_, ?_⟩
  · unfold selectExperts
    exact List.length_take_le 5 _
  · unfold selectExperts selectedExpertsScored
    exact (List.map_take _ _ _).symm
  · intro q hq
    have hq' : q ∈ (sortedExperts request ctx perf).filter (fun q => (3/10 : ℚ) < q.2) :=
      (List.take_sublist 5 _).subset hq
    have := (List.mem_filter.mp hq').2
    exact of_decide_eq_true this
  · exact (sortedExperts_sorted request ctx perf).sublist
      (selectedScored_sublist request ctx perf)
  · intro i j hi hj hij heq
    have hpair : List.Sublist
        [(selectedExpertsScored request ctx perf).get ⟨i, hi⟩,
         (selectedExpertsScored request ctx perf).get ⟨j, hj⟩]
        (selectedExpertsScored request ctx perf) :=
      pair_sublist_of_lt _ i j hi hj hij
    exact sortedExperts_ties request ctx perf
      (hpair.trans (selectedScored_sublist request ctx perf)) heq
  · intro nd _ hnone
    unfold adjustedExpertScore
    rw [hnone]
  · intro nd _
    exact calculateExpertScore_bounds request nd.2 ctx

/-- Claim C3 witness: at a concrete request with empty session context
and no performance records, the selector returns at most 5 workers. -/
theorem C3_select_experts_witness :
    (selectExperts "build a react component" {} (fun _ => none)).length ≤ 5 :=
  (C3_select_experts "build a react component" {} (fun _ => none)).1

end AgentSys
